import Mathlib

/-!
Verification development for the `otel-budget-proxy` repository.

The repository is a reverse proxy that enforces a byte budget per time
window.  Its correctness-critical core is:

* the atomic budget ledger: the Redis Lua script `checkBudgetLua`
  (src/main.go lines 58-74, identically src/unnamed/part_000 lines 58-72)
  together with the refund `DecrBy` (src/unnamed/part_000 line 310);
* the request handlers `handleRequest` of src/main.go (fail-open sampling,
  no refund) and of src/unnamed/part_000 (refund on forward failure,
  unconditional fail-closed), and `handleMetricsPassthrough`;
* the hydration estimator `EstimateHydratedSize` (second variant of
  src/estimator.go, lines 168-228, with `getCompactAttributeSize`);
* the schedule validation `loadScheduleConfig` / `validateAndCalculateSchedule`
  (src/main.go lines 187-264).

The embedding below translates those functions directly.  Redis executes a
Lua script atomically, so any interleaving of concurrent script calls and
`DecrBy` refunds on one key is equivalent to some sequential order of those
operations; concurrent behaviour is therefore modelled as sequences of
atomic operations on the per-key state.  Go `int64` arithmetic is modelled
by `Int` (no value in this code path approaches 2^63).  Go `float64`
percentages and sampling rates are modelled by exact rationals `ℚ`: the
comparisons in the source (`<`, `>`) are translated verbatim.
-/

/-- State of one Redis budget key: the usage counter (value of the key)
and its expiry (`none` models `PTTL < 0`, i.e. no TTL set; `some t`
models a TTL of `t` milliseconds). -/
structure WindowState where
  usage : Int
  expiry : Option Int
deriving DecidableEq, Repr

/-- A single-key view of the Redis store: `none` when the key does not
exist, `some s` when it exists with state `s`. -/
abbrev Store := Option WindowState

/-- Result of the atomic budget script: `1` (allowed) or `0` (denied). -/
inductive DebitResult where
  | allowed
  | denied
deriving DecidableEq, Repr

/-- Usage counter held in a store (a missing key reads as 0, which is
what Redis `INCRBY` assumes when it creates the key). -/
def usageOf (st : Store) : Int :=
  (st.getD ⟨0, none⟩).usage

/-- Expiry of the key in a store (a missing key has none). -/
def expiryOf (st : Store) : Option Int :=
  (st.getD ⟨0, none⟩).expiry

/-- The Lua script `checkBudgetLua` (src/main.go lines 58-74), executed
atomically by Redis:

    local current_usage = redis.call("INCRBY", KEYS[1], ARGV[1])
    local budget = tonumber(ARGV[2])
    if current_usage > budget then
      redis.call("DECRBY", KEYS[1], ARGV[1])
      return 0
    end
    if redis.call("PTTL", KEYS[1]) < 0 then
      redis.call("PEXPIRE", KEYS[1], ARGV[3])
    end
    return 1

`INCRBY` creates a missing key with value 0 (and no TTL) before adding;
`DECRBY` leaves the key in place even at value 0; `PTTL` is negative
exactly when the key carries no expiry, and `PEXPIRE` arms it. -/
def checkBudgetLua (st : Store) (amount budget ttl : Int) : DebitResult × Store :=
  let s0 : WindowState := st.getD ⟨0, none⟩
  let s1 : WindowState := ⟨s0.usage + amount, s0.expiry⟩
  if s1.usage > budget then
    (.denied, some ⟨s1.usage - amount, s1.expiry⟩)
  else
    let s2 : WindowState := if s1.expiry.isNone then ⟨s1.usage, some ttl⟩ else s1
    (.allowed, some s2)

/-- The refund operation: `rdb.DecrBy(ctx, key, sizeForBudgeting)`
(src/unnamed/part_000 line 310).  Redis `DECRBY` creates a missing key
at 0 before subtracting and does not touch the TTL. -/
def refund (st : Store) (amount : Int) : Store :=
  let s := st.getD ⟨0, none⟩
  some ⟨s.usage - amount, s.expiry⟩

/-- Sequential execution of a list of debit attempts (one per concurrent
caller; the script is atomic, so every interleaving is some order). -/
def runDebits (budget ttl : Int) : Store → List Int → Store
  | st, [] => st
  | st, a :: as => runDebits budget ttl (checkBudgetLua st a budget ttl).2 as

/-- Sum of the amounts of exactly those debit attempts in the sequence
that return `allowed`. -/
def allowedSum (budget ttl : Int) : Store → List Int → Int
  | _, [] => 0
  | st, a :: as =>
    let r := checkBudgetLua st a budget ttl
    (if r.1 = .allowed then a else 0) + allowedSum budget ttl r.2 as

-- Helper lemmas about a single script call.

theorem checkBudgetLua_denied_iff (st : Store) (a budget ttl : Int) :
    (checkBudgetLua st a budget ttl).1 = .denied ↔ budget < usageOf st + a := by
  unfold checkBudgetLua usageOf
  by_cases h : (st.getD ⟨0, none⟩).usage + a > budget <;>
    simp [h] <;> omega

theorem checkBudgetLua_allowed_iff (st : Store) (a budget ttl : Int) :
    (checkBudgetLua st a budget ttl).1 = .allowed ↔ usageOf st + a ≤ budget := by
  unfold checkBudgetLua usageOf
  by_cases h : (st.getD ⟨0, none⟩).usage + a > budget <;>
    simp [h] <;> omega

theorem usageOf_checkBudgetLua (st : Store) (a budget ttl : Int) :
    usageOf (checkBudgetLua st a budget ttl).2 =
      if usageOf st + a ≤ budget then usageOf st + a else usageOf st := by
  unfold checkBudgetLua usageOf
  by_cases h : (st.getD ⟨0, none⟩).usage + a > budget
  · simp [h]
    omega
  · by_cases he : (st.getD ⟨0, none⟩).expiry.isNone <;> simp [h, he] <;> omega

theorem usageOf_refund (st : Store) (a : Int) :
    usageOf (refund st a) = usageOf st - a := by
  unfold refund usageOf
  simp

theorem usageOf_runDebits (budget ttl : Int) (st : Store) (as : List Int) :
    usageOf (runDebits budget ttl st as) = usageOf st + allowedSum budget ttl st as := by
  induction as generalizing st with
  | nil => simp [runDebits, allowedSum]
  | cons a as ih =>
    rw [runDebits, allowedSum, ih]
    by_cases h : usageOf st + a ≤ budget
    · have hr : (checkBudgetLua st a budget ttl).1 = .allowed :=
        (checkBudgetLua_allowed_iff st a budget ttl).mpr h
      rw [usageOf_checkBudgetLua, if_pos h, hr]
      simp [add_assoc]
    · have hr : (checkBudgetLua st a budget ttl).1 = .denied :=
        (checkBudgetLua_denied_iff st a budget ttl).mpr (by omega)
      rw [usageOf_checkBudgetLua, if_neg h, hr]
      simp

/-- C1: For every window key, ceiling, and finite sequence of concurrent
tryDebit calls in any interleaving (the Lua script runs atomically, so an
interleaving is a sequential order of script executions), a call returns
Allowed and increments usage by its amount exactly when the incremented
usage does not exceed the ceiling; otherwise it returns Denied and leaves
usage at its pre-call value; the final usage equals the initial usage plus
the sum of the amounts of exactly the Allowed calls; and an Allowed call
never leaves usage above the ceiling. -/
theorem checkBudgetLua_budget_invariant (budget ttl : Int) :
    (∀ st a, usageOf st + a ≤ budget →
        (checkBudgetLua st a budget ttl).1 = .allowed ∧
        usageOf (checkBudgetLua st a budget ttl).2 = usageOf st + a) ∧
    (∀ st a, budget < usageOf st + a →
        (checkBudgetLua st a budget ttl).1 = .denied ∧
        usageOf (checkBudgetLua st a budget ttl).2 = usageOf st) ∧
    (∀ st a, (checkBudgetLua st a budget ttl).1 = .allowed →
        usageOf (checkBudgetLua st a budget ttl).2 ≤ budget) ∧
    (∀ st as, usageOf (runDebits budget ttl st as) =
        usageOf st + allowedSum budget ttl st as) := by
  refine ⟨?_, ?_, ?_, ?_⟩
  · intro st a h
    refine ⟨(checkBudgetLua_allowed_iff st a budget ttl).mpr h, ?_⟩
    rw [usageOf_checkBudgetLua, if_pos h]
  · intro st a h
    refine ⟨(checkBudgetLua_denied_iff st a budget ttl).mpr h, ?_⟩
    rw [usageOf_checkBudgetLua, if_neg (by omega)]
  · intro st a h
    have := (checkBudgetLua_allowed_iff st a budget ttl).mp h
    rw [usageOf_checkBudgetLua, if_pos this]
    omega
  · intro st as
    exact usageOf_runDebits budget ttl st as

/-- Witness for C1: the spec's scenario — ceiling 1000, two debit attempts
of 600 each against a fresh window; the final usage is the allowed sum,
namely 600 (exactly one attempt is allowed). -/
theorem checkBudgetLua_budget_invariant_witness :
    usageOf (runDebits 1000 60 none [600, 600]) =
      usageOf (none : Store) + allowedSum 1000 60 none [600, 600] ∧
    allowedSum 1000 60 none [600, 600] = 600 :=
  ⟨(checkBudgetLua_budget_invariant 1000 60).2.2.2 none [600, 600], by decide⟩

/-- C8: an Allowed result of the atomic script never leaves the key
without an expiry; in particular, when the key existed with no expiry
(e.g. after a failover), the script re-arms the expiry to the TTL
argument before returning Allowed. -/
theorem checkBudgetLua_rearms_ttl (st : Store) (a budget ttl : Int) :
    ((checkBudgetLua st a budget ttl).1 = .allowed →
      ∃ e, expiryOf (checkBudgetLua st a budget ttl).2 = some e) ∧
    (∀ u, st = some ⟨u, none⟩ →
      (checkBudgetLua st a budget ttl).1 = .allowed →
      expiryOf (checkBudgetLua st a budget ttl).2 = some ttl) := by
  constructor
  · intro h
    unfold checkBudgetLua at *
    by_cases hb : (st.getD ⟨0, none⟩).usage + a > budget
    · simp [hb] at h
    · rcases he : (st.getD ⟨0, none⟩).expiry with _ | e
      · exact ⟨ttl, by simp [hb, he, expiryOf]⟩
      · exact ⟨e, by simp [hb, he, expiryOf]⟩
  · intro u hst h
    subst hst
    unfold checkBudgetLua at *
    by_cases hb : u + a > budget
    · simp [hb] at h
    · simp [hb, expiryOf]

/-- Witness for C8: a key holding usage 100 with no expiry, debited 50
under ceiling 1000 with TTL 3600000, returns Allowed with expiry re-armed
to 3600000. -/
theorem checkBudgetLua_rearms_ttl_witness :
    expiryOf (checkBudgetLua (some ⟨100, none⟩) 50 1000 3600000).2 = some 3600000 :=
  (checkBudgetLua_rearms_ttl (some ⟨100, none⟩) 50 1000 3600000).2 100 rfl (by decide)

/-- C10: a debit attempt on a window key that does not exist, with an
amount exceeding the ceiling, returns Denied but leaves the key created
with value 0 and no expiry (INCRBY creates the key, DECRBY reverts it to
0, and the script returns before the PEXPIRE step); the zero-valued key
is left unchanged by further denied attempts and a later allowed debit
arms its TTL. -/
theorem checkBudgetLua_denied_creates_key (a budget ttl : Int) (h : budget < a) :
    checkBudgetLua none a budget ttl = (.denied, some ⟨0, none⟩) ∧
    (∀ b, budget < b →
      checkBudgetLua (some ⟨0, none⟩) b budget ttl = (.denied, some ⟨0, none⟩)) ∧
    (∀ b, b ≤ budget →
      checkBudgetLua (some ⟨0, none⟩) b budget ttl = (.allowed, some ⟨b, some ttl⟩)) := by
  refine ⟨?_, ?_, ?_⟩
  · unfold checkBudgetLua
    simp
    omega
  · intro b hb
    unfold checkBudgetLua
    simp
    omega
  · intro b hb
    unfold checkBudgetLua
    simp
    omega

/-- Witness for C10: on a store without the key, a debit of 1500 against
ceiling 1000 is denied and leaves the key at 0 with no expiry; a further
denied attempt of 2000 leaves it unchanged; a later allowed debit of 400
arms the TTL. -/
theorem checkBudgetLua_denied_creates_key_witness :
    checkBudgetLua none 1500 1000 60 = (.denied, some ⟨0, none⟩) ∧
    checkBudgetLua (some ⟨0, none⟩) 2000 1000 60 = (.denied, some ⟨0, none⟩) ∧
    checkBudgetLua (some ⟨0, none⟩) 400 1000 60 = (.allowed, some ⟨400, some 60⟩) := by
  obtain ⟨h1, h2, h3⟩ := checkBudgetLua_denied_creates_key 1500 1000 60 (by decide)
  exact ⟨h1, h2 2000 (by decide), h3 400 (by decide)⟩

/-- Traces of successful ledger operations on one window key.
`Reaches budget ttl st pending` means the store state `st` is reachable
from a fresh window (key absent, usage 0) by a sequence of atomic script
calls and refunds, where `pending` records the amounts of Allowed debits
not yet refunded.  A refund may only be issued for an amount pending from
a corresponding Allowed debit (src/unnamed/part_000 lines 305-319 refunds
exactly the amount just debited), and the engine only debits positive
sizes (`requestSize == 0` requests are accepted before the ledger is
consulted), so debit amounts are non-negative. -/
inductive Reaches (budget ttl : Int) : Store → List Int → Prop where
  | init : Reaches budget ttl none []
  | debitAllowed (st : Store) (pending : List Int) (a : Int) (st' : Store)
      (h : Reaches budget ttl st pending) (ha : 0 ≤ a)
      (hc : checkBudgetLua st a budget ttl = (.allowed, st')) :
      Reaches budget ttl st' (a :: pending)
  | debitDenied (st : Store) (pending : List Int) (a : Int) (st' : Store)
      (h : Reaches budget ttl st pending) (ha : 0 ≤ a)
      (hc : checkBudgetLua st a budget ttl = (.denied, st')) :
      Reaches budget ttl st' pending
  | refundStep (st : Store) (pending : List Int) (a : Int)
      (h : Reaches budget ttl st pending) (ha : a ∈ pending) :
      Reaches budget ttl (refund st a) (pending.erase a)

theorem reaches_usage_eq_pending_sum (budget ttl : Int) (st : Store)
    (pending : List Int) (hb : 0 ≤ budget)
    (h : Reaches budget ttl st pending) :
    usageOf st = pending.sum ∧ (∀ x ∈ pending, 0 ≤ x) ∧ usageOf st ≤ budget := by
  induction h with
  | init => simpa [usageOf] using hb
  | debitAllowed st pending a st' h ha hc ih =>
    obtain ⟨hsum, hpos, hle⟩ := ih
    have hall : (checkBudgetLua st a budget ttl).1 = .allowed := by rw [hc]
    have hfit := (checkBudgetLua_allowed_iff st a budget ttl).mp hall
    have husage : usageOf st' = usageOf st + a := by
      have := usageOf_checkBudgetLua st a budget ttl
      rw [hc, if_pos hfit] at this
      exact this
    refine ⟨by rw [husage, List.sum_cons, hsum]; ring, ?_, by omega⟩
    intro x hx
    rcases List.mem_cons.mp hx with hx | hx
    · omega
    · exact hpos x hx
  | debitDenied st pending a st' h ha hc ih =>
    obtain ⟨hsum, hpos, hle⟩ := ih
    have hden : (checkBudgetLua st a budget ttl).1 = .denied := by rw [hc]
    have hover := (checkBudgetLua_denied_iff st a budget ttl).mp hden
    have husage : usageOf st' = usageOf st := by
      have := usageOf_checkBudgetLua st a budget ttl
      rw [hc, if_neg (by omega)] at this
      exact this
    exact ⟨by rw [husage, hsum], hpos, by omega⟩
  | refundStep st pending a h ha ih =>
    obtain ⟨hsum, hpos, hle⟩ := ih
    have hperm : pending.Perm (a :: pending.erase a) := List.perm_cons_erase ha
    have hsum' : pending.sum = a + (pending.erase a).sum := by
      rw [hperm.sum_eq, List.sum_cons]
    have hpos' : ∀ x ∈ pending.erase a, 0 ≤ x := fun x hx =>
      hpos x (List.mem_of_mem_erase hx)
    refine ⟨?_, hpos', ?_⟩
    · rw [usageOf_refund, hsum, hsum']
      ring
    · rw [usageOf_refund]
      have := hpos a ha
      omega

/-- C3: in every state of one window's usage counter reachable by
successful ledger operations (Allowed or Denied debits of the engine's
positive sizes, and refunds only of pending Allowed debits), the
invariant `0 ≤ usage ≤ ceilingBytes` holds; the counter is never
observably negative and never observably above the ceiling. -/
theorem reaches_usage_invariant (budget ttl : Int) (st : Store)
    (pending : List Int) (hb : 0 ≤ budget)
    (h : Reaches budget ttl st pending) :
    0 ≤ usageOf st ∧ usageOf st ≤ budget := by
  obtain ⟨hsum, hpos, hle⟩ := reaches_usage_eq_pending_sum budget ttl st pending hb h
  refine ⟨?_, hle⟩
  rw [hsum]
  exact List.sum_nonneg hpos

/-- Witness for C3: with ceiling 1000, the trace debit 600 (Allowed),
debit 600 (Denied), refund 600 reaches a concrete state satisfying the
invariant. -/
theorem reaches_usage_invariant_witness :
    0 ≤ usageOf (refund (some ⟨600, some 60⟩) 600) ∧
    usageOf (refund (some ⟨600, some 60⟩) 600) ≤ 1000 := by
  have h1 : Reaches 1000 60 (some ⟨600, some 60⟩) [600] :=
    .debitAllowed none [] 600 (some ⟨600, some 60⟩) .init (by decide) (by decide)
  have h2 : Reaches 1000 60 (some ⟨600, some 60⟩) [600] :=
    .debitDenied (some ⟨600, some 60⟩) [600] 600 (some ⟨600, some 60⟩) h1
      (by decide) (by decide)
  have h3 : Reaches 1000 60 (refund (some ⟨600, some 60⟩) 600) ([600].erase 600) :=
    .refundStep (some ⟨600, some 60⟩) [600] 600 h2 (by decide)
  exact reaches_usage_invariant 1000 60 _ _ (by decide) h3

/-- Outcome of the forward attempt to the upstream backend:
transport-level error, or a response with the given status code. -/
inductive ForwardOutcome where
  | err
  | ok (status : Int)
deriving DecidableEq, Repr

/-- Whether the Redis script call itself fails (store unreachable). -/
inductive RedisOutcome where
  | up
  | down
deriving DecidableEq, Repr

/-- Observable effects of one request through a handler: the final
single-key store state, the HTTP status written to the caller, the
refund issued (with its amount) if any, and whether the request was
forwarded upstream. -/
structure HandlerOut where
  store : Store
  status : Int
  refunded : Option Int
  forwarded : Bool
deriving DecidableEq, Repr

/-- `handleRequest` of src/main.go (lines 305-360), as a function of the
pre-state of the window key and of the environment outcomes.
`requestSize` is the request body length; `rate` is
`failOpenSampleRate` and `sample` the value drawn by `rand.Float64()`
(both exact rationals; the source compares them with `>` and `<`).
On a script error the request is forwarded only when
`failOpenSampleRate > 0 && rand.Float64() < failOpenSampleRate`
(no debit is recorded), otherwise it is dropped with 503; a denied debit
yields 429; an admitted request is forwarded, a transport error yields
500, and otherwise the upstream status is mirrored.  This variant never
issues a refund. -/
def handleRequestMain (st : Store) (requestSize budget ttl : Int)
    (redis : RedisOutcome) (rate sample : ℚ) (fwd : ForwardOutcome) :
    HandlerOut :=
  if requestSize = 0 then ⟨st, 202, none, false⟩
  else
    match redis with
    | .down =>
      if rate > 0 ∧ sample < rate then
        match fwd with
        | .err => ⟨st, 500, none, true⟩
        | .ok _ => ⟨st, 202, none, true⟩
      else ⟨st, 503, none, false⟩
    | .up =>
      let r := checkBudgetLua st requestSize budget ttl
      match r.1 with
      | .denied => ⟨r.2, 429, none, false⟩
      | .allowed =>
        match fwd with
        | .err => ⟨r.2, 500, none, true⟩
        | .ok status => ⟨r.2, status, none, true⟩

/-- `handleRequest` of src/unnamed/part_000 (lines 214-323), as a
function of the pre-state and environment outcomes.  `requestSize` is
the buffered (possibly compressed) body length and `sizeForBudgeting`
the adjusted size actually debited.  A script error drops the request
with 503 unconditionally (this variant never fails open).  A denied
debit yields 429.  After an admitted debit, a transport error or an
upstream status ≥ 300 triggers `rdb.DecrBy(key, sizeForBudgeting)` —
refunding exactly the debited amount (modelled as succeeding; a failed
refund is only logged) — and the failure is surfaced (502 on transport
error, the upstream status otherwise). -/
def handleRequestPart0 (st : Store) (requestSize sizeForBudgeting budget ttl : Int)
    (redis : RedisOutcome) (fwd : ForwardOutcome) : HandlerOut :=
  if requestSize = 0 then ⟨st, 202, none, false⟩
  else
    match redis with
    | .down => ⟨st, 503, none, false⟩
    | .up =>
      let r := checkBudgetLua st sizeForBudgeting budget ttl
      match r.1 with
      | .denied => ⟨r.2, 429, none, false⟩
      | .allowed =>
        match fwd with
        | .err => ⟨refund r.2 sizeForBudgeting, 502, some sizeForBudgeting, true⟩
        | .ok status =>
          if status ≥ 300 then
            ⟨refund r.2 sizeForBudgeting, status, some sizeForBudgeting, true⟩
          else ⟨r.2, status, none, true⟩

/-- `handleMetricsPassthrough` of src/unnamed/part_000 (lines 201-208):
forwards unconditionally, never consults the ledger, never refunds. -/
def handleMetricsPassthrough (st : Store) (fwd : ForwardOutcome) : HandlerOut :=
  match fwd with
  | .err => ⟨st, 500, none, true⟩
  | .ok status => ⟨st, status, none, true⟩

/-- C2: in the engine variant with refunds (src/unnamed/part_000), after
an Allowed debit of amount n, a transport error or an upstream status
≥ 300 triggers a refund of exactly n, restoring usage to its pre-debit
value exactly, and a failure status (≥ 300) is surfaced; no refund is
issued after a Denied debit, on the committed path, or on src/main.go's
fail-open forwarding path (where no debit is recorded and the store is
untouched). -/
theorem refund_on_forward_failure (st : Store) (rs n budget ttl : Int) :
    (∀ status, rs ≠ 0 → (checkBudgetLua st n budget ttl).1 = .allowed →
      300 ≤ status →
      (handleRequestPart0 st rs n budget ttl .up (.ok status)).refunded = some n ∧
      usageOf (handleRequestPart0 st rs n budget ttl .up (.ok status)).store = usageOf st ∧
      300 ≤ (handleRequestPart0 st rs n budget ttl .up (.ok status)).status) ∧
    (rs ≠ 0 → (checkBudgetLua st n budget ttl).1 = .allowed →
      (handleRequestPart0 st rs n budget ttl .up .err).refunded = some n ∧
      usageOf (handleRequestPart0 st rs n budget ttl .up .err).store = usageOf st ∧
      300 ≤ (handleRequestPart0 st rs n budget ttl .up .err).status) ∧
    (∀ fwd, rs ≠ 0 → (checkBudgetLua st n budget ttl).1 = .denied →
      (handleRequestPart0 st rs n budget ttl .up fwd).refunded = none) ∧
    (∀ status, rs ≠ 0 → status < 300 →
      (handleRequestPart0 st rs n budget ttl .up (.ok status)).refunded = none) ∧
    (∀ fwd, rs ≠ 0 →
      (handleRequestPart0 st rs n budget ttl .down fwd).refunded = none ∧
      (handleRequestPart0 st rs n budget ttl .down fwd).store = st) ∧
    (∀ rate sample : ℚ, ∀ fwd, rs ≠ 0 → rate > 0 → sample < rate →
      (handleRequestMain st rs budget ttl .down rate sample fwd).refunded = none ∧
      (handleRequestMain st rs budget ttl .down rate sample fwd).store = st) := by
  have husage : (checkBudgetLua st n budget ttl).1 = .allowed →
      usageOf (refund (checkBudgetLua st n budget ttl).2 n) = usageOf st := by
    intro hall
    have hfit := (checkBudgetLua_allowed_iff st n budget ttl).mp hall
    rw [usageOf_refund, usageOf_checkBudgetLua, if_pos hfit]
    ring
  refine ⟨?_, ?_, ?_, ?_, ?_, ?_⟩
  · intro status hrs hall hstatus
    have h2 := husage hall
    simp [handleRequestPart0, hrs, hall, hstatus, h2]
  · intro hrs hall
    have h2 := husage hall
    simp [handleRequestPart0, hrs, hall, h2]
  · intro fwd hrs hden
    rcases fwd with _ | status <;> simp [handleRequestPart0, hrs, hden]
  · intro status hrs hstatus
    have hns : ¬ (300 ≤ status) := by omega
    rcases hr : (checkBudgetLua st n budget ttl).1 with _ | _ <;>
      simp [handleRequestPart0, hrs, hr, hns]
  · intro fwd hrs
    rcases fwd with _ | status <;> simp [handleRequestPart0, hrs]
  · intro rate sample fwd hrs hrate hsample
    rcases fwd with _ | status <;> simp [handleRequestMain, hrs, hrate, hsample]

/-- Witness for C2: the spec's scenario — an Allowed debit of 500 against
ceiling 1000, upstream answering 503: a refund of exactly 500 is issued,
usage returns to its pre-debit value 0, and the caller sees a failure. -/
theorem refund_on_forward_failure_witness :
    (handleRequestPart0 none 500 500 1000 60 .up (.ok 503)).refunded = some 500 ∧
    usageOf (handleRequestPart0 none 500 500 1000 60 .up (.ok 503)).store =
      usageOf (none : Store) ∧
    300 ≤ (handleRequestPart0 none 500 500 1000 60 .up (.ok 503)).status :=
  (refund_on_forward_failure none 500 500 1000 60).1 503 (by decide) (by decide)
    (by decide)

/-- C4: in src/main.go's handler, when the ledger call fails the request
is forwarded (without any debit recorded) if and only if the configured
fail-open rate is positive and the drawn sample selects open
(`sample < rate`); otherwise it is dropped with a 503
service-unavailable outcome, the store untouched.  With the default rate
0.0 every affected request is dropped and none forwarded.  (The
src/unnamed/part_000 variant drops every affected request with 503
unconditionally, which coincides with the rate-0 behaviour.) -/
theorem failopen_policy (st : Store) (rs budget ttl : Int)
    (rate sample : ℚ) (fwd : ForwardOutcome) (hrs : rs ≠ 0) :
    ((handleRequestMain st rs budget ttl .down rate sample fwd).forwarded = true ↔
      (0 < rate ∧ sample < rate)) ∧
    ((handleRequestMain st rs budget ttl .down rate sample fwd).store = st) ∧
    (¬ (0 < rate ∧ sample < rate) →
      (handleRequestMain st rs budget ttl .down rate sample fwd).status = 503) ∧
    (rate = 0 →
      (handleRequestMain st rs budget ttl .down rate sample fwd).forwarded = false ∧
      (handleRequestMain st rs budget ttl .down rate sample fwd).status = 503) ∧
    ((handleRequestPart0 st rs rs budget ttl .down fwd).forwarded = false ∧
      (handleRequestPart0 st rs rs budget ttl .down fwd).status = 503 ∧
      (handleRequestPart0 st rs rs budget ttl .down fwd).store = st) := by
  refine ⟨?_, ?_, ?_, ?_, ?_⟩
  · by_cases h : 0 < rate ∧ sample < rate
    · rcases fwd with _ | status <;> simp [handleRequestMain, hrs, h]
    · simp [handleRequestMain, hrs, h]
  · by_cases h : 0 < rate ∧ sample < rate
    · rcases fwd with _ | status <;> simp [handleRequestMain, hrs, h]
    · simp [handleRequestMain, hrs, h]
  · intro h
    simp [handleRequestMain, hrs, h]
  · intro h
    have h0 : ¬ (0 < rate ∧ sample < rate) := by
      rintro ⟨h1, _⟩
      rw [h] at h1
      exact lt_irrefl 0 h1
    simp [handleRequestMain, hrs, h0]
  · simp [handleRequestPart0, hrs]

/-- Witness for C4: with the default fail-open rate 0.0 and the store
down, a 100-byte request is not forwarded and is dropped with 503. -/
theorem failopen_policy_witness :
    (handleRequestMain none 100 1000 60 .down 0 (1/2) (.ok 200)).forwarded = false ∧
    (handleRequestMain none 100 1000 60 .down 0 (1/2) (.ok 200)).status = 503 :=
  (failopen_policy none 100 1000 60 0 (1/2) (.ok 200) (by decide)).2.2.2.1 rfl

/-- The handlers a request path is routed to. -/
inductive Handler where
  | budgeted
  | metricsPassthrough
  | healthz
  | promMetrics
deriving DecidableEq, Repr

/-- The route table registered by `main` in src/main.go (lines 274-282):
`/v1/traces`, `/v1/logs` and `/v1/metrics` are all bound to the budgeting
`handleRequest`. -/
def mainRoutes : String → Option Handler
  | "/_healthz" => some .healthz
  | "/metrics" => some .promMetrics
  | "/v1/traces" => some .budgeted
  | "/v1/logs" => some .budgeted
  | "/v1/metrics" => some .budgeted
  | _ => none

/-- The route table registered by `main` in src/unnamed/part_000
(lines 174-182): traces and logs are bound to the budgeting
`handleRequest`, `/v1/metrics` to `handleMetricsPassthrough`. -/
def part0Routes : String → Option Handler
  | "/_healthz" => some .healthz
  | "/metrics" => some .promMetrics
  | "/v1/traces" => some .budgeted
  | "/v1/logs" => some .budgeted
  | "/v1/metrics" => some .metricsPassthrough
  | _ => none

/-- Counterexample to C9 as stated: in src/main.go the `/v1/metrics` path
is routed to the budgeting `handleRequest`, not to a passthrough; a
100-byte metrics request there is debited (the window usage grows from 0
to 100), so the metrics path does not bypass budgeting unconditionally. -/
theorem metrics_routing_counterexample :
    mainRoutes "/v1/metrics" = some Handler.budgeted ∧
    Handler.budgeted ≠ Handler.metricsPassthrough ∧
    usageOf (handleRequestMain none 100 1000 60 .up 0 0 (.ok 200)).store = 100 := by
  refine ⟨rfl, by decide, ?_⟩
  simp [handleRequestMain, checkBudgetLua, usageOf]

/-- C9 amended: the two budgeted ingestion paths (traces and logs) are
routed to the admission engine in both variants; the metrics bypass
exists only in the src/unnamed/part_000 variant, whose
`handleMetricsPassthrough` forwards unconditionally, never touches the
ledger and never refunds; in src/main.go the metrics path is routed to
the same budgeting handler as traces and logs. -/
theorem metrics_routing_amended :
    mainRoutes "/v1/traces" = some Handler.budgeted ∧
    mainRoutes "/v1/logs" = some Handler.budgeted ∧
    mainRoutes "/v1/metrics" = some Handler.budgeted ∧
    part0Routes "/v1/traces" = some Handler.budgeted ∧
    part0Routes "/v1/logs" = some Handler.budgeted ∧
    part0Routes "/v1/metrics" = some Handler.metricsPassthrough ∧
    (∀ st fwd, (handleMetricsPassthrough st fwd).forwarded = true ∧
      (handleMetricsPassthrough st fwd).store = st ∧
      (handleMetricsPassthrough st fwd).refunded = none) := by
  refine ⟨rfl, rfl, rfl, rfl, rfl, rfl, ?_⟩
  intro st fwd
  rcases fwd with _ | status <;> simp [handleMetricsPassthrough]

/-- Witness for the amended C9: a metrics request through the part_000
passthrough with upstream status 200 is forwarded and leaves the window
state untouched. -/
theorem metrics_routing_amended_witness :
    (handleMetricsPassthrough (some ⟨7, some 60⟩) (.ok 200)).forwarded = true ∧
    (handleMetricsPassthrough (some ⟨7, some 60⟩) (.ok 200)).store = some ⟨7, some 60⟩ ∧
    (handleMetricsPassthrough (some ⟨7, some 60⟩) (.ok 200)).refunded = none :=
  metrics_routing_amended.2.2.2.2.2.2 (some ⟨7, some 60⟩) (.ok 200)

/-- An OTLP attribute value as decoded by the `OtelValue` struct of
src/estimator.go (second variant, lines 105-110): at most one of the
pointer fields `stringValue`, `intValue` (an int64 sent as a string),
`boolValue`, `doubleValue` is set; `none` models the case where none is.
A double is represented by its `fmt.Sprint` rendering, since
`getCompactAttributeSize` uses only the length of that rendering. -/
inductive AttrValue where
  | str (s : String)
  | int (s : String)
  | bool (b : Bool)
  | double (printed : String)
  | none
deriving DecidableEq, Repr

/-- One entry of the verbose OTLP attribute array (`OtelAttribute`). -/
structure OtelAttribute where
  key : String
  value : AttrValue
deriving DecidableEq, Repr

/-- A `json.RawMessage` holding an attribute block: its wire length in
bytes, and its parse result as a `[]OtelAttribute` (`none` when
`json.Unmarshal` fails; the length is 0 when the field is absent). -/
structure RawAttrs where
  len : Nat
  parsed : Option (List OtelAttribute)
deriving DecidableEq, Repr

/-- Byte contribution of one key/value pair in the loop body of
`getCompactAttributeSize` (src/estimator.go, second variant,
lines 136-158): `len(key) + 3` for the quoted key and colon, the value's
compact rendering, and the trailing comma `+ 1`. -/
def attrPairSize (attr : OtelAttribute) : Nat :=
  attr.key.length + 3 +
    (match attr.value with
     | .str s => s.length + 2
     | .int s => s.length
     | .bool true => 4
     | .bool false => 5
     | .double p => p.length
     | .none => 0) + 1

/-- `getCompactAttributeSize` (src/estimator.go, second variant, lines
120-164): 0 for a block of at most 2 bytes (`[]` or empty), 0 when the
block does not parse, 0 for an empty attribute list, and otherwise the
summed pair sizes minus the final trailing comma. -/
def getCompactAttributeSize (rawAttrs : RawAttrs) : Nat :=
  if rawAttrs.len ≤ 2 then 0
  else
    match rawAttrs.parsed with
    | Option.none => 0
    | Option.some [] => 0
    | Option.some attrs => (attrs.map attrPairSize).sum - 1

/-- One `scopeSpans` element of the envelope parsed by the second
`EstimateHydratedSize` variant (src/estimator.go lines 171-177): the
scope's attribute block and the numbers of span and log records. -/
structure ScopeSpansE where
  scopeAttrs : RawAttrs
  spans : Nat
  logs : Nat
deriving DecidableEq, Repr

/-- One `resourceSpans` element: the resource attribute block and its
scope groups. -/
structure ResourceSpansE where
  resourceAttrs : RawAttrs
  scopeSpans : List ScopeSpansE
deriving DecidableEq, Repr

/-- The parsed envelope `{"resourceSpans": [...]}`. -/
abbrev Envelope := List ResourceSpansE

/-- A payload as seen by the estimator: the raw byte length
`len(bodyBytes)` and the result of `json.Unmarshal` into the envelope
(`none` on parse failure, e.g. for the empty payload or non-JSON). -/
structure Payload where
  raw : Nat
  env : Option Envelope
deriving DecidableEq, Repr

/-- The result quadruple of `EstimateHydratedSize`. -/
structure EstimationOut where
  raw : Int
  factor : ℚ
  adj : Int
  rows : Nat
deriving DecidableEq, Repr

/-- `headerConst` (src/estimator.go line 101). -/
def headerConst : Int := 140

/-- Per-scope contribution of the loop body in the second
`EstimateHydratedSize` variant (src/estimator.go lines 201-217):
the amount subtracted from `bodiesOnlySize`, the amount added to
`dupBytes`, and the rows counted.  Both updates happen only when
`rowCount > 0`; rows are counted unconditionally. -/
def scopeContribution (resAttrs : RawAttrs) (ss : ScopeSpansE) : Int × Int × Nat :=
  let rowCount := ss.spans + ss.logs
  if 0 < rowCount then
    ((resAttrs.len + ss.scopeAttrs.len : Nat),
     ((getCompactAttributeSize resAttrs + getCompactAttributeSize ss.scopeAttrs : Nat)
        * rowCount : Nat),
     rowCount)
  else (0, 0, rowCount)

/-- Accumulation of `scopeContribution` over the whole envelope,
mirroring the nested loops of src/estimator.go lines 196-218:
total subtracted from `bodiesOnlySize`, total `dupBytes`, total rows. -/
def envStats : Envelope → Int × Int × Nat
  | [] => (0, 0, 0)
  | rs :: rest =>
    let inner := rs.scopeSpans.foldl
      (fun acc ss =>
        let c := scopeContribution rs.resourceAttrs ss
        (acc.1 + c.1, acc.2.1 + c.2.1, acc.2.2 + c.2.2))
      ((0 : Int), (0 : Int), (0 : Nat))
    let tail := envStats rest
    (inner.1 + tail.1, inner.2.1 + tail.2.1, inner.2.2 + tail.2.2)

/-- `EstimateHydratedSize` (second variant, src/estimator.go lines
168-228).  On parse failure: `factor = 1.0`, `adj = raw + headerConst`.
Otherwise `adj = bodiesOnlySize + dupBytes + headerConst` where
`bodiesOnlySize` starts at `raw` and is decremented by the attribute
block sizes of each (resource, scope) group with at least one record,
and `dupBytes` accumulates that group's compact footprint times its row
count; `factor = adj / raw`, or `1.0` when `raw == 0` (float division
modelled as exact rational division; the `1.0` branches are assignments
of the literal). -/
def EstimateHydratedSize (p : Payload) : EstimationOut :=
  let raw : Int := p.raw
  match p.env with
  | Option.none => ⟨raw, 1, raw + headerConst, 0⟩
  | Option.some env =>
    let s := envStats env
    let adj := raw - s.1 + s.2.1 + headerConst
    ⟨raw, if 0 < raw then (adj : ℚ) / (raw : ℚ) else 1, adj, s.2.2⟩

/-- The flattened list of (resource, scope) groups of an envelope, each
group pairing the resource's attribute block with one of its scopes. -/
def groupsOf : Envelope → List (RawAttrs × ScopeSpansE)
  | [] => []
  | rs :: rest => rs.scopeSpans.map (fun ss => (rs.resourceAttrs, ss)) ++ groupsOf rest

/-- Number of records (spans plus logs) in one group. -/
def rowsOfGroup (g : RawAttrs × ScopeSpansE) : Nat :=
  g.2.spans + g.2.logs

/-- Wire size of a group's shared attribute blocks (resource block plus
scope block). -/
def blockSizeOfGroup (g : RawAttrs × ScopeSpansE) : Int :=
  ((g.1.len + g.2.scopeAttrs.len : Nat) : Int)

/-- Duplicated compact footprint of a group: the compact stored size of
its shared attributes times its record count. -/
def dupOfGroup (g : RawAttrs × ScopeSpansE) : Int :=
  ((getCompactAttributeSize g.1 + getCompactAttributeSize g.2.scopeAttrs : Nat) : Int)
    * (rowsOfGroup g : Int)

/-- Modelled from the amended claim: the adjusted size written as sums
over the (resource, scope) groups that hold at least one record —
`raw` minus those groups' shared-block wire sizes, plus those groups'
duplicated compact footprints, plus the fixed overhead.  Groups with
zero records contribute nothing, neither duplication nor subtraction. -/
def specAdjustedAmended (raw : Int) (env : Envelope) : Int :=
  let gs := (groupsOf env).filter (fun g => 0 < rowsOfGroup g)
  raw - (gs.map blockSizeOfGroup).sum + (gs.map dupOfGroup).sum + headerConst

/-- Total record count of an envelope, over all groups. -/
def specRows (env : Envelope) : Nat :=
  ((groupsOf env).map rowsOfGroup).sum

theorem scopeContribution_eq (ra : RawAttrs) (ss : ScopeSpansE) :
    scopeContribution ra ss =
      (if 0 < rowsOfGroup (ra, ss) then blockSizeOfGroup (ra, ss) else 0,
       if 0 < rowsOfGroup (ra, ss) then dupOfGroup (ra, ss) else 0,
       rowsOfGroup (ra, ss)) := by
  simp only [scopeContribution, rowsOfGroup, blockSizeOfGroup, dupOfGroup]
  by_cases h : 0 < ss.spans + ss.logs
  · rw [if_pos h, if_pos h, if_pos h]
    refine Prod.ext rfl (Prod.ext ?_ rfl)
    push_cast
    ring
  · rw [if_neg h, if_neg h, if_neg h]

/-- The spec-side statistics of a group list: filtered block-size sum,
filtered duplication sum, and unconditional row total. -/
def specStats (gs : List (RawAttrs × ScopeSpansE)) : Int × Int × Nat :=
  (((gs.filter (fun g => 0 < rowsOfGroup g)).map blockSizeOfGroup).sum,
   ((gs.filter (fun g => 0 < rowsOfGroup g)).map dupOfGroup).sum,
   (gs.map rowsOfGroup).sum)

theorem specStats_append (gs1 gs2 : List (RawAttrs × ScopeSpansE)) :
    specStats (gs1 ++ gs2) =
      ((specStats gs1).1 + (specStats gs2).1,
       (specStats gs1).2.1 + (specStats gs2).2.1,
       (specStats gs1).2.2 + (specStats gs2).2.2) := by
  unfold specStats
  simp [List.filter_append]

theorem scope_foldl_eq (ra : RawAttrs) (l : List ScopeSpansE)
    (init : Int × Int × Nat) :
    l.foldl
      (fun acc ss =>
        let c := scopeContribution ra ss
        (acc.1 + c.1, acc.2.1 + c.2.1, acc.2.2 + c.2.2)) init =
    (init.1 + (specStats (l.map (fun ss => (ra, ss)))).1,
     init.2.1 + (specStats (l.map (fun ss => (ra, ss)))).2.1,
     init.2.2 + (specStats (l.map (fun ss => (ra, ss)))).2.2) := by
  induction l generalizing init with
  | nil => simp [specStats]
  | cons ss rest ih =>
    rw [List.foldl_cons, ih]
    rcases init with ⟨i1, i2, i3⟩
    by_cases h : 0 < rowsOfGroup (ra, ss)
    · simp only [scopeContribution_eq, if_pos h, List.map_cons, specStats,
        List.filter_cons, h, decide_True, if_true, List.sum_cons]
      refine Prod.ext ?_ (Prod.ext ?_ ?_) <;> simp <;> ring
    · simp only [scopeContribution_eq, if_neg h, List.map_cons, specStats,
        List.filter_cons, h, decide_False, if_false, List.sum_cons]
      refine Prod.ext ?_ (Prod.ext ?_ ?_) <;> simp <;> ring

theorem envStats_eq_specStats (env : Envelope) :
    envStats env = specStats (groupsOf env) := by
  induction env with
  | nil => simp [envStats, groupsOf, specStats]
  | cons rs rest ih =>
    rw [envStats, groupsOf, specStats_append, ← ih, scope_foldl_eq]
    simp

/-- Counterexample to C5 as stated.  The 128-byte payload

    \x7b"resourceSpans":[\x7b"resource":\x7b"attributes":[\x7b"key":"a",
    "value":\x7b"stringValue":"b"\x7d\x7d]\x7d,"scopeSpans":[\x7b"scope":
    \x7b\x7d,"spans":[]\x7d]\x7d]\x7d

parses into one resource whose attribute block is 41 bytes long and one
scope group with zero records.  Every group has zero records, so the
claim requires `adjustedBytes = raw − (shared-block sizes) + fixedOverhead
= 128 − 41 + 140 = 227`; the code performs no subtraction for a group
without records and returns `adjustedBytes = raw + headerConst = 268`. -/
theorem estimate_zero_rows_counterexample :
    (EstimateHydratedSize
      ⟨128, some [⟨⟨41, some [⟨"a", AttrValue.str "b"⟩]⟩, [⟨⟨0, Option.none⟩, 0, 0⟩]⟩]⟩).adj
      = 268 ∧
    (268 : Int) ≠ 128 - 41 + headerConst := by
  refine ⟨?_, by decide⟩
  simp [EstimateHydratedSize, envStats, scopeContribution, headerConst]

/-- C5 amended: for every payload that parses as the expected envelope,
`adjustedBytes` equals `raw` minus the shared-block wire sizes of exactly
those (resource, scope) groups holding at least one record (a resource's
block is subtracted once per such scope group), plus the sum over those
groups of the compact stored footprint of the group's shared attributes
times the group's record count, plus the fixed overhead; a group with
zero records contributes nothing — no duplication cost and no
subtraction — so a payload in which every group has zero records yields
`adjustedBytes = raw + fixedOverhead` (the shared blocks are not
subtracted); `rowCount` is the total record count over all groups. -/
theorem estimate_adjusted_eq_amended (raw : Nat) (env : Envelope) :
    (EstimateHydratedSize ⟨raw, some env⟩).adj = specAdjustedAmended raw env ∧
    (EstimateHydratedSize ⟨raw, some env⟩).rows = specRows env ∧
    ((∀ g ∈ groupsOf env, rowsOfGroup g = 0) →
      (EstimateHydratedSize ⟨raw, some env⟩).adj = raw + headerConst) := by
  have hstats := envStats_eq_specStats env
  refine ⟨?_, ?_, ?_⟩
  · simp only [EstimateHydratedSize, specAdjustedAmended, hstats, specStats]
  · simp only [EstimateHydratedSize, specRows, hstats, specStats]
  · intro hall
    have hfilter : (groupsOf env).filter (fun g => 0 < rowsOfGroup g) = [] := by
      rw [List.filter_eq_nil]
      intro g hg
      simp [hall g hg]
    simp only [EstimateHydratedSize, hstats, specStats, hfilter, List.map_nil,
      List.sum_nil]
    ring

/-- Witness for the amended C5, at the counterexample's payload: one
41-byte resource attribute block, one scope group with zero records;
every group has zero records and the adjusted size is `raw + 140`. -/
theorem estimate_adjusted_eq_amended_witness :
    (EstimateHydratedSize
      ⟨128, some [⟨⟨41, some [⟨"a", AttrValue.str "b"⟩]⟩, [⟨⟨0, Option.none⟩, 0, 0⟩]⟩]⟩).adj
      = 128 + headerConst :=
  (estimate_adjusted_eq_amended 128
      [⟨⟨41, some [⟨"a", AttrValue.str "b"⟩]⟩, [⟨⟨0, Option.none⟩, 0, 0⟩]⟩]).2.2
    (by decide)

/-- C6: the estimator is a total function and never fails.  For every
input that does not parse as the envelope it returns the fallback
`adjustedBytes = rawBytes + headerConst` with `expansionFactor = 1.0`;
the empty payload (raw 0, which cannot parse) yields
`adjustedBytes = headerConst` and factor 1.0; and the factor is 1.0
whenever `raw == 0`, on both the fallback and the parsed branch. -/
theorem estimator_fallback_total (p : Payload) :
    (∀ raw : Nat, EstimateHydratedSize ⟨raw, Option.none⟩ =
      ⟨(raw : Int), 1, (raw : Int) + headerConst, 0⟩) ∧
    EstimateHydratedSize ⟨0, Option.none⟩ = ⟨0, 1, headerConst, 0⟩ ∧
    (p.raw = 0 → (EstimateHydratedSize p).factor = 1) := by
  refine ⟨fun raw => rfl, by simp [EstimateHydratedSize, headerConst], ?_⟩
  intro h0
  rcases p with ⟨raw, env⟩
  simp only at h0
  subst h0
  rcases env with _ | env
  · rfl
  · simp [EstimateHydratedSize]

/-- Witness for C6: a 3-byte unparseable payload falls back to
`adj = 3 + 140` with factor 1, and a parsed empty envelope with raw 0
has factor 1. -/
theorem estimator_fallback_total_witness :
    EstimateHydratedSize ⟨3, Option.none⟩ = ⟨3, 1, 3 + headerConst, 0⟩ ∧
    (EstimateHydratedSize ⟨0, some []⟩).factor = 1 :=
  ⟨(estimator_fallback_total ⟨0, some []⟩).1 3,
   (estimator_fallback_total ⟨0, some []⟩).2.2 rfl⟩

/-- One entry of `schedule.json` (`HourlySchedule`, src/main.go lines
27-31).  The `total_percent` float64 is modelled as an exact rational. -/
structure HourlySchedule where
  hour : Int
  megabytesPerHour : Int
  totalPercent : ℚ
deriving DecidableEq, Repr

/-- The per-entry loop of `loadScheduleConfig` (src/main.go lines
203-212): range-checks each hour and rejects duplicates via the `hourMap`
set, here threaded as the list `seen` of hours already encountered. -/
def checkHours : List HourlySchedule → List Int → Except String Unit
  | [], _ => .ok ()
  | h :: rest, seen =>
    if h.hour < 0 ∨ h.hour > 23 then .error "invalid hour, must be 0-23"
    else if h.hour ∈ seen then .error "duplicate hour in schedule"
    else checkHours rest (h.hour :: seen)

/-- Validation part of `loadScheduleConfig` (src/main.go lines 187-216),
after the JSON has been decoded into the entry list: exactly 24 entries,
then the hour loop. -/
def loadScheduleConfig (s : List HourlySchedule) : Except String Unit :=
  if s.length ≠ 24 then .error "schedule must contain exactly 24 hours"
  else checkHours s []

/-- The running total of `validateAndCalculateSchedule` (src/main.go
lines 221-224): `totalPercent := 0.0` then `totalPercent += h.TotalPercent`
over the schedule. -/
def totalPercentOf (s : List HourlySchedule) : ℚ :=
  s.foldl (fun acc h => acc + h.totalPercent) 0

/-- Validation part of `validateAndCalculateSchedule` (src/main.go lines
219-231): fails unless the total percentage lies in [99.9, 100.0]. -/
def validateAndCalculateSchedule (s : List HourlySchedule) : Except String Unit :=
  if totalPercentOf s < 999/10 ∨ totalPercentOf s > 100 then
    .error "total percentage is outside valid range"
  else .ok ()

/-- The startup sequence for `BUDGET_WINDOW_TYPE=schedule` (src/main.go
lines 114-121): `loadScheduleConfig` then `validateAndCalculateSchedule`,
each failure fatal. -/
def loadAndValidateSchedule (s : List HourlySchedule) : Except String Unit :=
  match loadScheduleConfig s with
  | .error e => .error e
  | .ok _ => validateAndCalculateSchedule s

theorem checkHours_ok_iff (l : List HourlySchedule) (seen : List Int) :
    checkHours l seen = .ok () ↔
      ((∀ h ∈ l, 0 ≤ h.hour ∧ h.hour ≤ 23) ∧ (l.map (·.hour)).Nodup ∧
        ∀ h ∈ l, h.hour ∉ seen) := by
  induction l generalizing seen with
  | nil => simp [checkHours]
  | cons h rest ih =>
    rw [checkHours]
    by_cases h1 : h.hour < 0 ∨ h.hour > 23
    · simp only [if_pos h1]
      constructor
      · intro hfalse
        exact absurd hfalse (by simp)
      · rintro ⟨hr, _, _⟩
        have := hr h (List.mem_cons_self h rest)
        omega
    · rw [if_neg h1]
      by_cases h2 : h.hour ∈ seen
      · simp only [if_pos h2]
        constructor
        · intro hfalse
          exact absurd hfalse (by simp)
        · rintro ⟨_, _, hd⟩
          exact absurd h2 (hd h (List.mem_cons_self h rest))
      · rw [if_neg h2, ih]
        constructor
        · rintro ⟨hr, hn, hd⟩
          refine ⟨?_, ?_, ?_⟩
          · intro x hx
            rcases List.mem_cons.mp hx with hx | hx
            · subst hx; omega
            · exact hr x hx
          · rw [List.map_cons, List.nodup_cons]
            refine ⟨?_, hn⟩
            intro hmem
            rcases List.mem_map.mp hmem with ⟨x, hx, hxh⟩
            exact hd x hx (by rw [hxh]; exact List.mem_cons_self _ _)
          · intro x hx
            rcases List.mem_cons.mp hx with hx | hx
            · subst hx
              exact h2
            · intro hmem
              exact hd x hx (List.mem_cons_of_mem _ hmem)
        · rintro ⟨hr, hn, hd⟩
          rw [List.map_cons, List.nodup_cons] at hn
          refine ⟨?_, hn.2, ?_⟩
          · intro x hx
            exact hr x (List.mem_cons_of_mem _ hx)
          · intro x hx
            intro hmem
            rcases List.mem_cons.mp hmem with hm | hm
            · exact hn.1 (hm ▸ List.mem_map.mpr ⟨x, hx, rfl⟩)
            · exact hd x (List.mem_cons_of_mem _ hx) hm

theorem sum_count_Icc_cons (a : Int) (t : List Int) :
    ∑ k ∈ Finset.Icc (0 : ℤ) 23, (a :: t).count k =
      (∑ k ∈ Finset.Icc (0 : ℤ) 23, t.count k) +
        (if a ∈ Finset.Icc (0 : ℤ) 23 then 1 else 0) := by
  simp only [List.count_cons, beq_iff_eq]
  rw [Finset.sum_add_distrib,
    Finset.sum_ite_eq (Finset.Icc (0 : ℤ) 23) a (fun _ => 1)]

theorem sum_count_Icc_le (L : List Int) :
    ∑ k ∈ Finset.Icc (0 : ℤ) 23, L.count k ≤ L.length := by
  induction L with
  | nil => simp
  | cons a t ih =>
    rw [sum_count_Icc_cons, List.length_cons]
    by_cases h : a ∈ Finset.Icc (0 : ℤ) 23 <;> simp [h] <;> omega

theorem sum_count_Icc_eq_length (L : List Int)
    (h : ∑ k ∈ Finset.Icc (0 : ℤ) 23, L.count k = L.length) :
    ∀ a ∈ L, 0 ≤ a ∧ a ≤ 23 := by
  induction L with
  | nil => simp
  | cons a t ih =>
    rw [sum_count_Icc_cons, List.length_cons] at h
    by_cases hmem : a ∈ Finset.Icc (0 : ℤ) 23
    · rw [if_pos hmem] at h
      have ht : ∑ k ∈ Finset.Icc (0 : ℤ) 23, t.count k = t.length := by omega
      intro x hx
      rcases List.mem_cons.mp hx with hx | hx
      · subst hx
        exact Finset.mem_Icc.mp hmem
      · exact ih ht x hx
    · rw [if_neg hmem] at h
      have := sum_count_Icc_le t
      omega

theorem hours_exactly_once_iff (L : List Int) (hlen : L.length = 24) :
    ((∀ a ∈ L, 0 ≤ a ∧ a ≤ 23) ∧ L.Nodup) ↔
      (∀ k : Int, 0 ≤ k → k ≤ 23 → L.count k = 1) := by
  constructor
  · rintro ⟨hr, hn⟩
    have hsub : L.toFinset ⊆ Finset.Icc (0 : ℤ) 23 := by
      intro k hk
      have := hr k (List.mem_toFinset.mp hk)
      exact Finset.mem_Icc.mpr this
    have hcard : (Finset.Icc (0 : ℤ) 23).card ≤ L.toFinset.card := by
      rw [List.toFinset_card_of_nodup hn, hlen, Int.card_Icc]
      decide
    have heq : L.toFinset = Finset.Icc (0 : ℤ) 23 :=
      Finset.eq_of_subset_of_card_le hsub hcard
    intro k hk0 hk23
    have hkmem : k ∈ L := by
      rw [← List.mem_toFinset, heq]
      exact Finset.mem_Icc.mpr ⟨hk0, hk23⟩
    have h1 : 1 ≤ L.count k := List.count_pos_iff.mpr hkmem
    have h2 : L.count k ≤ 1 := List.nodup_iff_count_le_one.mp hn k
    omega
  · intro hcount
    have hsum : ∑ k ∈ Finset.Icc (0 : ℤ) 23, L.count k = L.length := by
      rw [hlen]
      rw [Finset.sum_congr rfl (fun k hk => hcount k (Finset.mem_Icc.mp hk).1
        (Finset.mem_Icc.mp hk).2)]
      rw [Finset.sum_const, Int.card_Icc]
      decide
    have hrange := sum_count_Icc_eq_length L hsum
    refine ⟨hrange, List.nodup_iff_count_le_one.mpr ?_⟩
    intro a
    by_cases ha : 0 ≤ a ∧ a ≤ 23
    · rw [hcount a ha.1 ha.2]
    · have : a ∉ L := fun hmem => ha (hrange a hmem)
      rw [List.count_eq_zero.mpr this]
      omega

/-- C7: schedule load-and-validate accepts exactly the schedules with 24
entries in which every hour 0-23 appears exactly once (out-of-range and
duplicate hours are rejected) and whose percentage total lies in
[99.9, 100.0]; any violation is a validation error (fatal at startup,
`log.Fatalf` in src/main.go lines 114-121). -/
theorem loadAndValidateSchedule_iff (s : List HourlySchedule) :
    loadAndValidateSchedule s = .ok () ↔
      (s.length = 24 ∧
       (∀ k : Int, 0 ≤ k → k ≤ 23 → (s.map (·.hour)).count k = 1) ∧
       999/10 ≤ totalPercentOf s ∧ totalPercentOf s ≤ 100) := by
  unfold loadAndValidateSchedule loadScheduleConfig
  by_cases hlen : s.length = 24
  · rw [if_neg (by simp [hlen])]
    have hmaplen : (s.map (·.hour)).length = 24 := by simp [hlen]
    have hkey : checkHours s [] = .ok () ↔
        (∀ k : Int, 0 ≤ k → k ≤ 23 → (s.map (·.hour)).count k = 1) := by
      rw [checkHours_ok_iff, ← hours_exactly_once_iff _ hmaplen]
      simp [List.forall_mem_map]
    rcases hch : checkHours s [] with e | u
    · have : ¬ (∀ k : Int, 0 ≤ k → k ≤ 23 → (s.map (·.hour)).count k = 1) := by
        rw [← hkey, hch]
        simp
      simp [hlen, this]
    · cases u
      have hc := hkey.mp hch
      unfold validateAndCalculateSchedule
      by_cases hp : totalPercentOf s < 999/10 ∨ totalPercentOf s > 100
      · rw [if_pos hp]
        constructor
        · intro hfalse
          exact absurd hfalse (by simp)
        · rintro ⟨_, _, hb1, hb2⟩
          rcases hp with hp | hp
          · exact absurd hb1 (by linarith)
          · exact absurd hb2 (by linarith)
      · rw [if_neg hp]
        push_neg at hp
        constructor
        · intro _
          exact ⟨hlen, hc, hp.1, hp.2⟩
        · intro _
          rfl
  · rw [if_pos (by simp [hlen])]
    constructor
    · intro hfalse
      exact absurd hfalse (by simp)
    · rintro ⟨h24, _⟩
      exact absurd h24 hlen

/-- A well-formed schedule: hours 0-23 once each, every hour 25/6 percent
(24 entries summing to exactly 100.0). -/
def goodSchedule : List HourlySchedule :=
  (List.range 24).map (fun i => ⟨(i : Int), 10, 25/6⟩)

/-- The same schedule with hour 5 removed (23 entries). -/
def scheduleMissingHour5 : List HourlySchedule :=
  ((List.range 24).filter (fun i => i ≠ 5)).map (fun i => ⟨(i : Int), 10, 25/6⟩)

/-- The same schedule with hour 5's entry replaced by a duplicate of
hour 3 (24 entries, hour 3 twice, hour 5 absent). -/
def scheduleDupHour3 : List HourlySchedule :=
  (List.range 24).map (fun i => ⟨if i = 5 then 3 else (i : Int), 10, 25/6⟩)

/-- The same hours but 3.75 percent each: total 90.0. -/
def scheduleLowTotal : List HourlySchedule :=
  (List.range 24).map (fun i => ⟨(i : Int), 10, 375/100⟩)

/-- Witness for C7: the spec's scenarios — the complete 100.0% schedule
validates; removing hour 5, duplicating hour 3, and summing to 90% each
independently fail validation. -/
theorem loadAndValidateSchedule_iff_witness :
    loadAndValidateSchedule goodSchedule = .ok () ∧
    loadAndValidateSchedule scheduleMissingHour5 ≠ .ok () ∧
    loadAndValidateSchedule scheduleDupHour3 ≠ .ok () ∧
    loadAndValidateSchedule scheduleLowTotal ≠ .ok () := by
  have hgood : totalPercentOf goodSchedule = 100 := by
    norm_num [totalPercentOf, goodSchedule, List.range_succ]
  have hlow : totalPercentOf scheduleLowTotal = 90 := by
    norm_num [totalPercentOf, scheduleLowTotal, List.range_succ]
  refine ⟨?_, ?_, ?_, ?_⟩
  · exact (loadAndValidateSchedule_iff goodSchedule).mpr
      ⟨by decide, by intro k h0 h23; interval_cases k <;> decide,
       by rw [hgood]; norm_num, by rw [hgood]⟩
  · intro h
    have hr := (loadAndValidateSchedule_iff scheduleMissingHour5).mp h
    exact absurd hr.1 (by decide)
  · intro h
    have hr := (loadAndValidateSchedule_iff scheduleDupHour3).mp h
    exact absurd (hr.2.1 5 (by decide) (by decide)) (by decide)
  · intro h
    have hr := (loadAndValidateSchedule_iff scheduleLowTotal).mp h
    have hb := hr.2.2.1
    rw [hlow] at hb
    norm_num at hb
